import Mathlib

/-!
# Build-identifier extraction: `builder/buildid.go`

A shallow embedding of `ReadBuildID` and of the library values it consumes.

`ReadBuildID` is a Go function of no arguments: everything it works on comes
from the environment (`runtime.GOOS`, `os.Executable`, `os.Open`) and from the
parsers of the Go standard library (`debug/elf`, `debug/macho`, `debug/pe`).
The embedding makes that environment an explicit argument, `World`, holding
what each of those calls returns.  The body of `ReadBuildID` is translated
statement by statement:

* a Go result `([]byte, error)` is `Outcome.ret id err`, with `none` for `nil`;
  a run-time panic (index out of range, call through a nil reader) is
  `Outcome.panic`;
* `make([]byte, n)` panics when `n` is beyond what the run time allocates
  (`World.maxAlloc`); the 100-byte buffer of the PE branch is always served;
* every call that touches the image is recorded in `Run.calls`, in order;
* the three `for ... range` loops are structural recursions over the list,
  returning `none` when the loop ends without a `return`, in which case
  control reaches the last line of the function (line 101).

The values the parsers return are taken as the library documents them: the
reader embedded in an `elf.Section` may be nil (`debug/elf` leaves it so for a
compressed section), every `pe.Section` carries a reader.
-/

set_option autoImplicit false

namespace builder

/-- One byte of an executable image. -/
abbrev Byte := Fin 256

/-- An `error` value returned by a library call (`os`, `io`, `debug/*`). -/
structure LibError where
  msg : String
deriving DecidableEq, Repr

/-- The `error` values `ReadBuildID` can return. -/
inductive Error where
  /-- An error of a library call, returned unchanged (`return nil, err`). -/
  | lib (e : LibError)
  /-- The value of `fmt.Errorf("could not read build id: %w", err)`; `err` may be `nil`. -/
  | couldNotRead (cause : Option LibError)
  /-- The value of `fmt.Errorf("cannot read build ID for GOOS=%s", runtime.GOOS)`. -/
  | cannotReadGOOS (goos : String)
  /-- The value of `fmt.Errorf("could not find build ID in %s", executable)`. -/
  | couldNotFind (executable : String)
deriving DecidableEq, Repr

/-- How a call of `ReadBuildID` ends: it returns a pair `([]byte, error)`, either
component possibly `nil`, or it panics. -/
inductive Outcome where
  | ret (id : Option (List Byte)) (err : Option Error)
  | panic
deriving DecidableEq, Repr

/-- What `ReadAt(p, off)` reports: the bytes it stored at the front of `p`
(so `n` is their number) and the error. -/
structure ReadResult where
  data : List Byte
  err : Option LibError
deriving DecidableEq, Repr

/-- The count `n` returned by `ReadAt`. -/
def ReadResult.n (r : ReadResult) : Nat := r.data.length

/-- An `io.ReaderAt`: the length of the buffer and the offset give the result. -/
abbrev ReaderAt := Nat → Int → ReadResult

/-- The buffer `buf := make([]byte, len)` after `ReadAt(buf, off)` delivered `data`:
the delivered bytes, then the zero bytes `make` put there. -/
def filled (len : Nat) (data : List Byte) : List Byte :=
  (data ++ List.replicate (len - data.length) 0).take len

namespace io

/-- The error `io.EOF`. -/
def EOF : LibError := ⟨"EOF"⟩

/-- Modelled from the spec: the section reader of the Go standard library
(`io.SectionReader`, not among the source files), through which `debug/pe` and
`debug/elf` serve `section.ReadAt`.  It gives access to the bytes
`[base, limit)` of the underlying reader `r`. -/
structure SectionReader where
  r : ReaderAt
  base : Int
  limit : Int

/-- Modelled from the spec: `io.NewSectionReader(r, off, n)`, the reader of the
`n` bytes of `r` that start at `off`. -/
def NewSectionReader (r : ReaderAt) (off n : Int) : SectionReader :=
  ⟨r, off, off + n⟩

/-- Modelled from the spec: `(*io.SectionReader).ReadAt`.  An offset outside the
section is `EOF`; a request that runs past the end of the section is cut to the
bytes that remain and reports an error (the reader's, or `EOF`); a request
inside the section goes to the underlying reader unchanged ("fewer than 100
bytes available at the offset" is a read error). -/
def SectionReader.ReadAt (s : SectionReader) : ReaderAt := fun len off =>
  if off < 0 ∨ off ≥ s.limit - s.base then ⟨[], some EOF⟩
  else
    let off := off + s.base
    let max := s.limit - off
    if (len : Int) > max then
      let rd := s.r max.toNat off
      ⟨rd.data, if rd.err = none then some EOF else rd.err⟩
    else s.r len off

end io

namespace binary

/-- The function `binary.LittleEndian.Uint32(b)`; `none` is its panic on a slice
of fewer than 4 bytes (`_ = b[3]`). -/
def LittleEndian.Uint32 (b : List Byte) : Option Nat :=
  match b with
  | b0 :: b1 :: b2 :: b3 :: _ =>
    some (b0.val ||| (b1.val <<< 8) ||| (b2.val <<< 16) ||| (b3.val <<< 24))
  | _ => none

end binary

namespace bytes

/-- The function `bytes.HasPrefix(s, p)`. -/
def HasPrefix (s p : List Byte) : Bool :=
  s.length ≥ p.length && s.take p.length == p

end bytes

namespace elf

/-- The section type `elf.SHT_NOTE`. -/
def SHT_NOTE : Nat := 7

/-- The fields of `elf.Section` that `ReadBuildID` uses; `ShType` is the field
`Type` (`sh_type` in the section header), `Size` a `uint64`.  `ReadAt` is the
embedded `io.ReaderAt`, which "may be nil if the section is not easily available
in a random-access form", as for a compressed section: `none` is that nil. -/
structure Section where
  Name : String
  ShType : Nat
  Size : Nat
  ReadAt : Option ReaderAt

/-- The fields of `elf.File` that `ReadBuildID` uses. -/
structure File where
  Sections : List Section

end elf

namespace macho

/-- A `macho.Load`: either a `macho.LoadBytes` (the raw bytes of a command the
package does not decode) or a value of another type (segment, symbol table,
dylib, rpath), on which the type assertion `load.(macho.LoadBytes)` fails. -/
inductive Load where
  | LoadBytes (raw : List Byte)
  | other (raw : List Byte)
deriving DecidableEq, Repr

/-- The fields of `macho.File` that `ReadBuildID` uses. -/
structure File where
  Loads : List Load

end macho

namespace pe

/-- The fields of `pe.Symbol` that `ReadBuildID` uses: `Value` is a `uint32`,
`SectionNumber` an `int16`. -/
structure Symbol where
  Name : String
  Value : Nat
  SectionNumber : Int
deriving DecidableEq, Repr

/-- The fields of `pe.Section` that `ReadBuildID` uses, with the header fields
`Offset` and `Size` (both `uint32`). -/
structure Section where
  Offset : Nat
  Size : Nat
  ReadAt : ReaderAt

/-- The fields of `pe.File` that `ReadBuildID` uses. -/
structure File where
  Sections : List Section
  Symbols : List Symbol

end pe

namespace os

/-- The open file `f`, seen through the three parsers: what `elf.NewFile(f)`,
`macho.NewFile(f)` and `pe.NewFile(f)` return on it. -/
structure File where
  elfNewFile : Except LibError elf.File
  machoNewFile : Except LibError macho.File
  peNewFile : Except LibError pe.File

end os

/-- The environment of one call of `ReadBuildID`. -/
structure World where
  /-- The constant `runtime.GOOS`. -/
  GOOS : String
  /-- The result of `os.Executable()`. -/
  Executable : Except LibError String
  /-- The result of `os.Open(name)`. -/
  Open : String → Except LibError os.File
  /-- The largest `n` for which `make([]byte, n)` returns a slice; for a larger
  `n` the run time panics ("len out of range") or runs out of memory. -/
  maxAlloc : Nat

/-- The calls `ReadBuildID` makes on the system and on the image. -/
inductive Call where
  | Executable
  | Open (name : String)
  | elfNewFile
  | machoNewFile
  | peNewFile
  | ReadAt (len : Nat) (off : Int)
  | Close
deriving DecidableEq, Repr

/-- A run of `ReadBuildID`: the calls made, in order, and how it ended. -/
structure Run where
  calls : List Call
  result : Outcome
deriving DecidableEq, Repr

/-- The byte string `"\xff Go build ID: \""` (16 bytes). -/
def goBuildIDMarker : List Byte :=
  [0xff, 0x20, 0x47, 0x6f, 0x20, 0x62, 0x75, 0x69, 0x6c, 0x64, 0x20, 0x49, 0x44, 0x3a, 0x20, 0x22]

/-- The value of a 16-bit signed integer expression: `int16` arithmetic wraps. -/
def wrapInt16 (x : Int) : Int := (x + 32768) % 65536 - 32768

/-- The index expression `s[i]`; `none` is the index-out-of-range panic. -/
def index {α : Type} (s : List α) (i : Int) : Option α :=
  if i < 0 then none else s.get? i.toNat

/-- Lines 33-43: the loop over `file.Sections` of the ELF branch.  The second
component is `none` when the loop ends without returning.  The allocation
`make([]byte, section.Size)` of line 37 panics for a size above `maxAlloc`, and
the call `section.ReadAt` of line 38 panics when the embedded reader is nil. -/
def elfSections (maxAlloc : Nat) : List elf.Section → List Call × Option Outcome
  | [] => ([], none)
  | sec :: rest =>
    if sec.ShType ≠ elf.SHT_NOTE ∨ sec.Name ≠ ".note.gnu.build-id" then
      elfSections maxAlloc rest
    else if sec.Size > maxAlloc then
      ([], some .panic)
    else
      match sec.ReadAt with
      | none => ([], some .panic)
      | some ReadAt =>
        let rd := ReadAt sec.Size 0
        let buf := filled sec.Size rd.data
        if rd.n ≠ sec.Size ∨ rd.err ≠ none then
          ([Call.ReadAt sec.Size 0], some (.ret none (some (.couldNotRead rd.err))))
        else
          ([Call.ReadAt sec.Size 0], some (.ret (some buf) none))

/-- Lines 51-68: the loop over `file.Loads` of the Mach-O branch.  It reads
nothing from the image: the raw bytes are in the parsed file. -/
def machoLoads : List macho.Load → Option Outcome
  | [] => none
  | .other _ :: rest => machoLoads rest
  | .LoadBytes raw :: rest =>
    match binary.LittleEndian.Uint32 raw with
    | none => some .panic
    | some command =>
      if command ≠ 0x1b then machoLoads rest
      else some (.ret (some (raw.drop 4)) none)

/-- Lines 82-97: the loop over `file.Symbols` of the PE branch.  The index
expression of line 89 is evaluated in `int16` and panics when out of range; a
window that is read in full and fails the test of line 94 leaves the loop
running. -/
def peSymbols (file : pe.File) : List pe.Symbol → List Call × Option Outcome
  | [] => ([], none)
  | symbol :: rest =>
    if symbol.Name ≠ "go.buildid" then
      peSymbols file rest
    else
      match index file.Sections (wrapInt16 (symbol.SectionNumber - 1)) with
      | none => ([], some .panic)
      | some sec =>
        let rd := sec.ReadAt 100 (symbol.Value : Int)
        let buf := filled 100 rd.data
        if rd.err ≠ none ∨ rd.n ≠ 100 then
          ([Call.ReadAt 100 symbol.Value], some (.ret none (some (.couldNotRead rd.err))))
        else if bytes.HasPrefix buf goBuildIDMarker ∧ buf.get? (buf.length - 1) = some 0x22 then
          ([Call.ReadAt 100 symbol.Value],
            some (.ret (some ((buf.take (buf.length - 1)).drop goBuildIDMarker.length)) none))
        else
          let next := peSymbols file rest
          (Call.ReadAt 100 symbol.Value :: next.1, next.2)

/-- Lines 26-101: the `switch runtime.GOOS` and the statement after it, for the
executable name `executable` and the open file `f`. -/
def switchGOOS (GOOS executable : String) (f : os.File) (maxAlloc : Nat) : Run :=
  let notFound : Outcome := .ret none (some (.couldNotFind executable))
  if GOOS = "linux" ∨ GOOS = "freebsd" then
    match f.elfNewFile with
    | .error err => ⟨[.elfNewFile], .ret none (some (.lib err))⟩
    | .ok file =>
      let scan := elfSections maxAlloc file.Sections
      ⟨.elfNewFile :: scan.1, scan.2.getD notFound⟩
  else if GOOS = "darwin" then
    match f.machoNewFile with
    | .error err => ⟨[.machoNewFile], .ret none (some (.lib err))⟩
    | .ok file => ⟨[.machoNewFile], (machoLoads file.Loads).getD notFound⟩
  else if GOOS = "windows" then
    match f.peNewFile with
    | .error err => ⟨[.peNewFile], .ret none (some (.lib err))⟩
    | .ok file =>
      let scan := peSymbols file file.Symbols
      ⟨.peNewFile :: scan.1, scan.2.getD notFound⟩
  else
    ⟨[], .ret none (some (.cannotReadGOOS GOOS))⟩

/-- The function `ReadBuildID` (lines 15-102).  The deferred `f.Close()` runs
on every path after a successful `os.Open`, a panic included. -/
def ReadBuildID (w : World) : Run :=
  match w.Executable with
  | .error err => ⟨[.Executable], .ret none (some (.lib err))⟩
  | .ok executable =>
    match w.Open executable with
    | .error err => ⟨[.Executable, .Open executable], .ret none (some (.lib err))⟩
    | .ok f =>
      let body := switchGOOS w.GOOS executable f w.maxAlloc
      ⟨[.Executable, .Open executable] ++ body.calls ++ [.Close], body.result⟩

/-! ## Images built the way the parsers build them -/

namespace os

/-- Modelled from the spec: reads on the image, "an immutable, randomly
addressable byte container", as `(*os.File).ReadAt` serves them on a file whose
bytes are `contents`: the bytes from `off` on, at most `len` of them, and `EOF`
when they are fewer than `len`. -/
def ReadAt (contents : List Byte) : ReaderAt := fun len off =>
  if off < 0 then ⟨[], some ⟨"negative offset"⟩⟩
  else
    let data := (contents.drop off.toNat).take len
    ⟨data, if data.length < len then some io.EOF else none⟩

end os

/-- Modelled from the spec: the reader `zeroReaderAt` of `debug/pe` (not among
the source files), which serves every read in full with zero bytes. -/
def pe.zeroReaderAt : ReaderAt := fun len _ => ⟨List.replicate len 0, none⟩

/-- A section as `pe.NewFile` builds it: its reader is
`io.NewSectionReader(r2, Offset, Size)`, where `r2` is the file `r`, or
`zeroReaderAt` for a section without raw data (`PointerToRawData`, the `Offset`,
is 0). -/
def pe.NewSection (r : ReaderAt) (Offset Size : Nat) : pe.Section :=
  ⟨Offset, Size,
    (io.NewSectionReader (if Offset = 0 then pe.zeroReaderAt else r) Offset Size).ReadAt⟩

/-- An uncompressed section as `elf.NewFile` builds it: its reader is
`io.NewSectionReader(r, Offset, Size)` on the file `r`. -/
def elf.NewSection (r : ReaderAt) (Name : String) (ShType Offset Size : Nat) : elf.Section :=
  ⟨Name, ShType, Size, some (io.NewSectionReader r Offset Size).ReadAt⟩

/-- A compressed section (flag `SHF_COMPRESSED`) as `elf.NewFile` builds it:
`Size` is the uncompressed size of the compression header and the embedded
reader is left nil. -/
def elf.NewCompressedSection (Name : String) (ShType Size : Nat) : elf.Section :=
  ⟨Name, ShType, Size, none⟩

/-- The embedded reader of the section is nil, or it is the section reader
`elf.NewFile` sets up over the section's `Size` bytes of the file. -/
def elf.Section.readerAsParsed (s : elf.Section) : Prop :=
  s.ReadAt = none ∨ ∃ (r : ReaderAt) (off : Int), s.ReadAt = some (io.NewSectionReader r off s.Size).ReadAt

/-- The error of a parser on a file of another format. -/
def badMagic : LibError := ⟨"bad magic number"⟩

/-- A world in which the running executable is `/usr/bin/tinygo`, opens, and is
the file `f`, on a machine that allocates up to 2^48 bytes. -/
def worldOf (GOOS : String) (f : os.File) : World :=
  ⟨GOOS, .ok "/usr/bin/tinygo", fun _ => .ok f, 2 ^ 48⟩

/-- A file that parses as ELF only. -/
def elfImage (file : elf.File) : os.File := ⟨.ok file, .error badMagic, .error badMagic⟩

/-- A file that parses as Mach-O only. -/
def machoImage (file : macho.File) : os.File := ⟨.error badMagic, .ok file, .error badMagic⟩

/-- A file that parses as PE only. -/
def peImage (file : pe.File) : os.File := ⟨.error badMagic, .error badMagic, .ok file⟩

/-- A well-framed 100-byte `go.buildid` window with payload `Q` (83 bytes). -/
def framed (Q : List Byte) : List Byte := goBuildIDMarker ++ Q ++ [0x22]

/-- The command is passed over by the Mach-O scan: it is not a
`macho.LoadBytes`, or its raw bytes carry an id other than `0x1b` (LC_UUID). -/
def macho.Load.otherID : macho.Load → Prop
  | .LoadBytes raw =>
    match binary.LittleEndian.Uint32 raw with
    | some command => command ≠ 0x1b
    | none => False
  | .other _ => True

instance (l : macho.Load) : Decidable l.otherID :=
  match l with
  | .other _ => isTrue trivial
  | .LoadBytes raw =>
    match h : binary.LittleEndian.Uint32 raw with
    | none => isFalse (by simp [macho.Load.otherID, h])
    | some command =>
      if hc : command ≠ 0x1b then isTrue (by simpa [macho.Load.otherID, h] using hc)
      else isFalse (by simpa [macho.Load.otherID, h] using hc)

/-- The section passes the test of the ELF scan: type `SHT_NOTE` and name
`.note.gnu.build-id`. -/
def elf.Section.isBuildID (s : elf.Section) : Prop :=
  s.ShType = elf.SHT_NOTE ∧ s.Name = ".note.gnu.build-id"

instance (s : elf.Section) : Decidable s.isBuildID :=
  inferInstanceAs (Decidable (_ ∧ _))

/-- The 1-based section number `n` (an `int16`) names a section of `file`. -/
def pe.File.validSectionNumber (file : pe.File) (n : Int) : Prop :=
  1 ≤ n ∧ n ≤ file.Sections.length ∧ n ≤ 32767

instance (file : pe.File) (n : Int) : Decidable (file.validSectionNumber n) :=
  inferInstanceAs (Decidable (_ ∧ _ ∧ _))

/-! ## Example images -/

/-- A five-byte build id. -/
def exampleP : List Byte := [0xde, 0xad, 0xbe, 0xef, 0x01]

/-- The bytes of a file: ten bytes of code, then `exampleP`, then `exampleP` reversed. -/
def exampleELFBytes : List Byte := List.replicate 10 0x90 ++ exampleP ++ exampleP.reverse

/-- An ELF file with a `.text` section, a section of type `SHT_NOTE` with another
name, and two sections that pass the test. -/
def exampleELF : elf.File :=
  ⟨[elf.NewSection (os.ReadAt exampleELFBytes) ".text" 1 0 10,
    elf.NewSection (os.ReadAt exampleELFBytes) ".note.ABI-tag" 7 0 10,
    elf.NewSection (os.ReadAt exampleELFBytes) ".note.gnu.build-id" 7 10 5,
    elf.NewSection (os.ReadAt exampleELFBytes) ".note.gnu.build-id" 7 15 5]⟩

/-- The 16 bytes after the id of a raw command of 20 bytes: the size field
(`cmdsize` = 20) and 12 more bytes. -/
def exampleU : List Byte := [0x14, 0, 0, 0, 1, 2, 3, 4, 5, 6, 7, 8, 9, 10, 11, 12]

/-- An `LC_RPATH` command of 16 bytes (path `/a`), which `macho.NewFile` decodes. -/
def exampleRpath : List Byte :=
  [0x1c, 0, 0, 0x80, 0x10, 0, 0, 0, 0x0c, 0, 0, 0, 0x2f, 0x61, 0, 0]

/-- A second raw command of id `0x1b` and 20 bytes, with other bytes after the
size field. -/
def exampleLaterUUID : List Byte :=
  [0x1b, 0, 0, 0, 0x14, 0, 0, 0, 12, 11, 10, 9, 8, 7, 6, 5, 4, 3, 2, 1]

/-- A Mach-O file with a decoded command, a raw command of id `0x32`, and two
raw commands of id `0x1b`. -/
def exampleMachO : macho.File :=
  ⟨[.other exampleRpath,
    .LoadBytes [0x32, 0, 0, 0, 8, 0, 0, 0],
    .LoadBytes ([0x1b, 0, 0, 0] ++ exampleU),
    .LoadBytes exampleLaterUUID]⟩

/-- An 83-byte payload. -/
def exampleQ : List Byte := List.replicate 83 0x41

/-- The bytes of a file: seven zero bytes, then a well-framed window. -/
def examplePEBytes : List Byte := List.replicate 7 0 ++ framed exampleQ

/-- A PE file whose one section covers bytes 4 to 107 of `examplePEBytes`, with
the symbols `symbols`. -/
def examplePE (symbols : List pe.Symbol) : pe.File :=
  ⟨[pe.NewSection (os.ReadAt examplePEBytes) 4 103], symbols⟩

/-- The raw bytes of an LC_UUID command that declares a size of 8: the id and the
size field, no UUID. -/
def exampleShortUUID : List Byte := [0x1b, 0, 0, 0, 8, 0, 0, 0]

/-- The window is framed as `ReadBuildID` expects: it starts with the marker and
its last byte is a double quote. -/
def isFramed (buf : List Byte) : Prop :=
  bytes.HasPrefix buf goBuildIDMarker = true ∧ buf.get? (buf.length - 1) = some 0x22

instance (buf : List Byte) : Decidable (isFramed buf) :=
  inferInstanceAs (Decidable (_ ∧ _))

/-- A PE file of one section whose symbol table names `go.buildid` with section
number 0, the number of an undefined symbol. -/
def exampleUndefinedPE : pe.File :=
  examplePE [⟨".text", 0, 1⟩, ⟨"go.buildid", 0, 0⟩]

/-- An ELF file whose section `.note.gnu.build-id` has the declared size 0. -/
def exampleEmptyELF : elf.File :=
  ⟨[elf.NewSection (os.ReadAt exampleELFBytes) ".text" 1 0 10,
    elf.NewSection (os.ReadAt exampleELFBytes) ".note.gnu.build-id" 7 10 0]⟩

/-- An ELF file whose section `.note.gnu.build-id` is compressed: 36 bytes once
uncompressed, no reader. -/
def exampleCompressedELF : elf.File :=
  ⟨[elf.NewSection (os.ReadAt exampleELFBytes) ".text" 1 0 10,
    elf.NewCompressedSection ".note.gnu.build-id" 7 36]⟩

/-! ## Lemmas on the buffer and on the three scans -/

/-- A read that fills the buffer leaves exactly the delivered bytes in it. -/
theorem filled_of_length_eq (len : Nat) (data : List Byte) (h : data.length = len) :
    filled len data = data := by
  subst h
  simp [filled]

/-- The buffer keeps the length `make` gave it. -/
theorem filled_length (len : Nat) (data : List Byte) : (filled len data).length = len := by
  simp [filled]
  omega

/-- After a successful `os.Executable` and `os.Open` the result is that of the switch. -/
theorem ReadBuildID_result (w : World) (executable : String) (f : os.File)
    (hexe : w.Executable = .ok executable) (hopen : w.Open executable = .ok f) :
    (ReadBuildID w).result = (switchGOOS w.GOOS executable f w.maxAlloc).result := by
  simp [ReadBuildID, hexe, hopen]

/-- After a successful `os.Executable` and `os.Open` the calls are those of the
switch, between the two opening calls and the deferred `Close`. -/
theorem ReadBuildID_calls (w : World) (executable : String) (f : os.File)
    (hexe : w.Executable = .ok executable) (hopen : w.Open executable = .ok f) :
    (ReadBuildID w).calls =
      [.Executable, .Open executable] ++ (switchGOOS w.GOOS executable f w.maxAlloc).calls ++
        [.Close] := by
  simp [ReadBuildID, hexe, hopen]

/-- Sections that fail the type-or-name test are passed over. -/
theorem elfSections_skip (maxAlloc : Nat) (pre rest : List elf.Section)
    (hpre : ∀ t ∈ pre, t.ShType ≠ elf.SHT_NOTE ∨ t.Name ≠ ".note.gnu.build-id") :
    elfSections maxAlloc (pre ++ rest) = elfSections maxAlloc rest := by
  induction pre with
  | nil => rfl
  | cons t pre ih =>
    have ht := hpre t (List.mem_cons_self t pre)
    have hrest : ∀ u ∈ pre, u.ShType ≠ elf.SHT_NOTE ∨ u.Name ≠ ".note.gnu.build-id" :=
      fun u hu => hpre u (List.mem_cons_of_mem t hu)
    simp only [List.cons_append, elfSections, if_pos ht]
    exact ih hrest

/-- Commands that are not raw bytes, or whose id is not `0x1b`, are passed over. -/
theorem machoLoads_skip (pre rest : List macho.Load) (hpre : ∀ l ∈ pre, l.otherID) :
    machoLoads (pre ++ rest) = machoLoads rest := by
  induction pre with
  | nil => rfl
  | cons l pre ih =>
    have hl := hpre l (List.mem_cons_self l pre)
    have hrest : ∀ u ∈ pre, u.otherID := fun u hu => hpre u (List.mem_cons_of_mem l hu)
    cases l with
    | other raw => simpa [machoLoads] using ih hrest
    | LoadBytes raw =>
      unfold macho.Load.otherID at hl
      cases hc : binary.LittleEndian.Uint32 raw with
      | none => simp [hc] at hl
      | some c =>
        have hne : c ≠ 0x1b := by simpa [hc] using hl
        simp only [List.cons_append, machoLoads, hc, if_pos hne]
        exact ih hrest

/-- Symbols with another name are passed over. -/
theorem peSymbols_skip (file : pe.File) (pre rest : List pe.Symbol)
    (hpre : ∀ t ∈ pre, t.Name ≠ "go.buildid") :
    peSymbols file (pre ++ rest) = peSymbols file rest := by
  induction pre with
  | nil => rfl
  | cons t pre ih =>
    have ht := hpre t (List.mem_cons_self t pre)
    have hrest : ∀ u ∈ pre, u.Name ≠ "go.buildid" :=
      fun u hu => hpre u (List.mem_cons_of_mem t hu)
    simp only [List.cons_append, peSymbols, if_pos ht]
    exact ih hrest

/-- A valid section number indexes the section it names. -/
theorem index_of_validSectionNumber (file : pe.File) (n : Int) (sec : pe.Section)
    (hnum : file.validSectionNumber n)
    (hsec : file.Sections.get? (n - 1).toNat = some sec) :
    index file.Sections (wrapInt16 (n - 1)) = some sec := by
  obtain ⟨h1, _, h3⟩ := hnum
  have hw : wrapInt16 (n - 1) = n - 1 := by
    unfold wrapInt16
    omega
  rw [hw, index, if_neg (by omega)]
  exact hsec

/-- A symbol named `go.buildid` whose window is read in full and is framed ends
the scan with the bytes between marker and closing quote. -/
theorem peSymbols_framed (file : pe.File) (symbol : pe.Symbol) (post : List pe.Symbol)
    (sec : pe.Section) (win : List Byte)
    (hname : symbol.Name = "go.buildid")
    (hidx : index file.Sections (wrapInt16 (symbol.SectionNumber - 1)) = some sec)
    (hread : sec.ReadAt 100 symbol.Value = ⟨win, none⟩) (hwin : win.length = 100)
    (hframe : isFramed win) :
    peSymbols file (symbol :: post) =
      ([Call.ReadAt 100 symbol.Value],
        some (.ret (some ((win.take (win.length - 1)).drop goBuildIDMarker.length)) none)) := by
  have hn : ¬ symbol.Name ≠ "go.buildid" := by simp [hname]
  have hok : ¬ ((sec.ReadAt 100 symbol.Value).err ≠ none ∨
      (sec.ReadAt 100 symbol.Value).n ≠ 100) := by
    simp [hread, ReadResult.n, hwin]
  have hbuf : filled 100 (sec.ReadAt 100 symbol.Value).data = win := by
    rw [hread]
    exact filled_of_length_eq _ _ hwin
  simp only [peSymbols, if_neg hn, hidx, if_neg hok, hbuf]
  exact if_pos hframe

/-- A symbol named `go.buildid` whose window is read in full and is not framed
does not end the scan: the loop goes on with the next symbol. -/
theorem peSymbols_not_framed (file : pe.File) (symbol : pe.Symbol) (post : List pe.Symbol)
    (sec : pe.Section) (win : List Byte)
    (hname : symbol.Name = "go.buildid")
    (hidx : index file.Sections (wrapInt16 (symbol.SectionNumber - 1)) = some sec)
    (hread : sec.ReadAt 100 symbol.Value = ⟨win, none⟩) (hwin : win.length = 100)
    (hbad : ¬ isFramed win) :
    peSymbols file (symbol :: post) =
      (Call.ReadAt 100 symbol.Value :: (peSymbols file post).1, (peSymbols file post).2) := by
  have hn : ¬ symbol.Name ≠ "go.buildid" := by simp [hname]
  have hok : ¬ ((sec.ReadAt 100 symbol.Value).err ≠ none ∨
      (sec.ReadAt 100 symbol.Value).n ≠ 100) := by
    simp [hread, ReadResult.n, hwin]
  have hbuf : filled 100 (sec.ReadAt 100 symbol.Value).data = win := by
    rw [hread]
    exact filled_of_length_eq _ _ hwin
  simp only [peSymbols, if_neg hn, hidx, if_neg hok, hbuf]
  exact if_neg hbad

/-- The payload of a framed window `marker ++ Q ++ quote`. -/
theorem framed_payload (Q : List Byte) :
    ((framed Q).take ((framed Q).length - 1)).drop goBuildIDMarker.length = Q := by
  have h99 : (framed Q).length - 1 = (goBuildIDMarker ++ Q).length := by
    simp [framed]
  rw [h99]
  unfold framed
  rw [List.take_left, List.drop_left]

/-- A window `marker ++ Q ++ quote` is framed. -/
theorem isFramed_framed (Q : List Byte) : isFramed (framed Q) := by
  constructor
  · simp [bytes.HasPrefix, framed, List.append_assoc]
  · have hlen : (framed Q).length - 1 = (goBuildIDMarker ++ Q).length := by simp [framed]
    rw [hlen]
    unfold framed
    rw [List.get?_eq_getElem?, List.getElem?_append_right (le_refl _)]
    simp

/-- On at least 4 bytes `binary.LittleEndian.Uint32` does not panic. -/
theorem Uint32_isSome (raw : List Byte) (h : 4 ≤ raw.length) :
    ∃ command, binary.LittleEndian.Uint32 raw = some command := by
  match raw, h with
  | b0 :: b1 :: b2 :: b3 :: _, _ => exact ⟨_, rfl⟩

/-- A section reader over no bytes reports `EOF` at offset 0, whatever the
length of the buffer. -/
theorem SectionReader_ReadAt_empty (r : ReaderAt) (off : Int) (len : Nat) :
    (io.NewSectionReader r off (0 : Nat)).ReadAt len 0 = ⟨[], some io.EOF⟩ := by
  simp [io.SectionReader.ReadAt, io.NewSectionReader]

/-- The sections `elf.NewFile` builds have a reader as parsed. -/
theorem NewSection_readerAsParsed (r : ReaderAt) (Name : String) (ShType Offset Size : Nat) :
    (elf.NewSection r Name ShType Offset Size).readerAsParsed :=
  Or.inr ⟨r, Offset, rfl⟩

/-- What the ELF scan can return when the reader of every build-id section is nil
or the section reader over its `Size` bytes: a non-empty identifier, an error and
no bytes, or a panic, and the panic comes from a build-id section whose size
cannot be allocated or whose reader is nil. -/
theorem elfSections_outcome (maxAlloc : Nat) (l : List elf.Section) (o : Outcome)
    (hwf : ∀ s ∈ l, s.isBuildID → s.readerAsParsed)
    (h : (elfSections maxAlloc l).2 = some o) :
    (∃ b, b ≠ [] ∧ o = .ret (some b) none) ∨
    (∃ e, o = .ret none (some e)) ∨
    (o = .panic ∧ ∃ s ∈ l, s.isBuildID ∧ (s.Size > maxAlloc ∨ s.ReadAt = none)) := by
  induction l with
  | nil => simp [elfSections] at h
  | cons s rest ih =>
    have hrest : ∀ t ∈ rest, t.isBuildID → t.readerAsParsed :=
      fun t ht => hwf t (List.mem_cons_of_mem s ht)
    by_cases hs : s.ShType ≠ elf.SHT_NOTE ∨ s.Name ≠ ".note.gnu.build-id"
    · simp only [elfSections, if_pos hs] at h
      rcases ih hrest h with hb | he | ⟨hp, t, ht, hrest'⟩
      · exact Or.inl hb
      · exact Or.inr (Or.inl he)
      · exact Or.inr (Or.inr ⟨hp, t, List.mem_cons_of_mem s ht, hrest'⟩)
    · have hmatch : s.isBuildID := by
        simp only [not_or, not_not] at hs
        exact hs
      by_cases halloc : s.Size > maxAlloc
      · simp only [elfSections, if_neg hs, if_pos halloc, Option.some.injEq] at h
        exact Or.inr (Or.inr ⟨h.symm, s, List.mem_cons_self s rest, hmatch, Or.inl halloc⟩)
      · cases hreader : s.ReadAt with
        | none =>
          simp only [elfSections, if_neg hs, if_neg halloc, hreader, Option.some.injEq] at h
          exact Or.inr (Or.inr ⟨h.symm, s, List.mem_cons_self s rest, hmatch, Or.inr hreader⟩)
        | some rd =>
          by_cases hr : (rd s.Size 0).n ≠ s.Size ∨ (rd s.Size 0).err ≠ none
          · simp only [elfSections, if_neg hs, if_neg halloc, hreader, if_pos hr,
              Option.some.injEq] at h
            exact Or.inr (Or.inl ⟨_, h.symm⟩)
          · simp only [elfSections, if_neg hs, if_neg halloc, hreader, if_neg hr,
              Option.some.injEq] at h
            refine Or.inl ⟨_, ?_, h.symm⟩
            intro hnil
            have hlen := filled_length s.Size (rd s.Size 0).data
            rw [hnil, List.length_nil] at hlen
            rcases hwf s (List.mem_cons_self s rest) hmatch with hnone | ⟨r, off, hsr⟩
            · rw [hreader] at hnone
              cases hnone
            · rw [hreader, Option.some.injEq] at hsr
              apply hr
              right
              rw [hsr, ← hlen, SectionReader_ReadAt_empty]
              simp

/-- What the Mach-O scan can return when every raw command has at least 8
bytes, as `macho.NewFile` requires of a command: the bytes after the id of a raw
command of id `0x1b`, at least 4 of them. -/
theorem machoLoads_outcome (l : List macho.Load) (o : Outcome)
    (hwf : ∀ raw, macho.Load.LoadBytes raw ∈ l → 8 ≤ raw.length)
    (h : machoLoads l = some o) :
    ∃ raw, macho.Load.LoadBytes raw ∈ l ∧ binary.LittleEndian.Uint32 raw = some 0x1b ∧
      o = .ret (some (raw.drop 4)) none ∧ raw.drop 4 ≠ [] := by
  induction l with
  | nil => simp [machoLoads] at h
  | cons c rest ih =>
    have hrest : ∀ raw, macho.Load.LoadBytes raw ∈ rest → 8 ≤ raw.length :=
      fun raw hraw => hwf raw (List.mem_cons_of_mem c hraw)
    cases c with
    | other raw =>
      simp only [machoLoads] at h
      obtain ⟨r, hr, hrest'⟩ := ih hrest h
      exact ⟨r, List.mem_cons_of_mem _ hr, hrest'⟩
    | LoadBytes raw =>
      have h8 := hwf raw (List.mem_cons_self _ rest)
      obtain ⟨command, hc⟩ := Uint32_isSome raw (by omega)
      by_cases hne : command ≠ 0x1b
      · simp only [machoLoads, hc, if_pos hne] at h
        obtain ⟨r, hr, hrest'⟩ := ih hrest h
        exact ⟨r, List.mem_cons_of_mem _ hr, hrest'⟩
      · simp only [machoLoads, hc, if_neg hne, Option.some.injEq] at h
        have hcmd : command = 0x1b := by simpa using hne
        refine ⟨raw, List.mem_cons_self _ rest, by rw [hc, hcmd], h.symm, ?_⟩
        intro hnil
        have hlen := List.length_drop 4 raw
        rw [hnil, List.length_nil] at hlen
        omega

/-- What the PE scan can return: 83 bytes, an error and no bytes, or a panic, and
the panic comes from a symbol named `go.buildid` whose section number is out of
range for the index expression of line 89. -/
theorem peSymbols_outcome (file : pe.File) (l : List pe.Symbol) (o : Outcome)
    (h : (peSymbols file l).2 = some o) :
    (∃ b, o = .ret (some b) none ∧ b.length = 83) ∨
    (∃ e, o = .ret none (some e)) ∨
    (o = .panic ∧ ∃ t ∈ l, t.Name = "go.buildid" ∧
      index file.Sections (wrapInt16 (t.SectionNumber - 1)) = none) := by
  induction l with
  | nil => simp [peSymbols] at h
  | cons t rest ih =>
    have hlift : (o = .panic ∧ ∃ u ∈ rest, u.Name = "go.buildid" ∧
          index file.Sections (wrapInt16 (u.SectionNumber - 1)) = none) →
        (o = .panic ∧ ∃ u ∈ t :: rest, u.Name = "go.buildid" ∧
          index file.Sections (wrapInt16 (u.SectionNumber - 1)) = none) :=
      fun ⟨hp, u, hu, hrest'⟩ => ⟨hp, u, List.mem_cons_of_mem t hu, hrest'⟩
    by_cases hn : t.Name ≠ "go.buildid"
    · simp only [peSymbols, if_pos hn] at h
      rcases ih h with hb | he | hp
      · exact Or.inl hb
      · exact Or.inr (Or.inl he)
      · exact Or.inr (Or.inr (hlift hp))
    · have hname : t.Name = "go.buildid" := by simpa using hn
      cases hidx : index file.Sections (wrapInt16 (t.SectionNumber - 1)) with
      | none =>
        simp only [peSymbols, if_neg hn, hidx, Option.some.injEq] at h
        exact Or.inr (Or.inr ⟨h.symm, t, List.mem_cons_self t rest, hname, hidx⟩)
      | some sec =>
        by_cases hr : (sec.ReadAt 100 t.Value).err ≠ none ∨ (sec.ReadAt 100 t.Value).n ≠ 100
        · simp only [peSymbols, if_neg hn, hidx, if_pos hr, Option.some.injEq] at h
          exact Or.inr (Or.inl ⟨_, h.symm⟩)
        · by_cases hf : isFramed (filled 100 (sec.ReadAt 100 t.Value).data)
          · simp only [peSymbols, if_neg hn, hidx, if_neg hr] at h
            unfold isFramed at hf
            rw [if_pos hf] at h
            simp only [Option.some.injEq] at h
            refine Or.inl ⟨_, h.symm, ?_⟩
            simp [filled_length, goBuildIDMarker]
          · simp only [peSymbols, if_neg hn, hidx, if_neg hr] at h
            unfold isFramed at hf
            rw [if_neg hf] at h
            rcases ih h with hb | he | hp
            · exact Or.inl hb
            · exact Or.inr (Or.inl he)
            · exact Or.inr (Or.inr (hlift hp))

/-! ## The claims -/

/-- C1: in the ELF branch (GOOS `linux` or `freebsd`), when the first section in
header order with type `SHT_NOTE` and name `.note.gnu.build-id` delivers, read
through its reader at offset 0 into a buffer of its declared `Size`, all of
those `Size` bytes `P` without error, the result is success with exactly `P`; the sections before it
that fail the test and all sections after it (matching or not) have no effect,
and that read is the only one made. -/
theorem C1_elf_first_note_section (w : World) (executable : String) (f : os.File)
    (file : elf.File) (pre post : List elf.Section) (s : elf.Section) (ReadAt : ReaderAt)
    (P : List Byte)
    (hgoos : w.GOOS = "linux" ∨ w.GOOS = "freebsd")
    (hexe : w.Executable = .ok executable) (hopen : w.Open executable = .ok f)
    (hparse : f.elfNewFile = .ok file)
    (hsecs : file.Sections = pre ++ s :: post)
    (hpre : ∀ t ∈ pre, ¬ t.isBuildID)
    (hs : s.isBuildID)
    (halloc : s.Size ≤ w.maxAlloc)
    (hreader : s.ReadAt = some ReadAt)
    (hread : ReadAt s.Size 0 = ⟨P, none⟩) (hlen : P.length = s.Size) :
    ReadBuildID w =
      ⟨[.Executable, .Open executable, .elfNewFile, .ReadAt s.Size 0, .Close],
        .ret (some P) none⟩ := by
  have hskip : elfSections w.maxAlloc (pre ++ s :: post) =
      elfSections w.maxAlloc (s :: post) := by
    apply elfSections_skip
    intro t ht
    have := hpre t ht
    simp only [elf.Section.isBuildID, not_and_or] at this
    exact this
  have hmatch : ¬ (s.ShType ≠ elf.SHT_NOTE ∨ s.Name ≠ ".note.gnu.build-id") := by
    simp [hs.1, hs.2]
  have hok : ¬ ((ReadAt s.Size 0).n ≠ s.Size ∨ (ReadAt s.Size 0).err ≠ none) := by
    simp [hread, ReadResult.n, hlen]
  have hscan : elfSections w.maxAlloc (s :: post) =
      ([Call.ReadAt s.Size 0], some (.ret (some P) none)) := by
    simp only [elfSections, if_neg hmatch, if_neg (Nat.not_lt.mpr halloc), hreader, if_neg hok]
    rw [hread, filled_of_length_eq _ _ hlen]
  simp [ReadBuildID, hexe, hopen, switchGOOS, hgoos, hparse, hsecs, hskip, hscan]

/-- C1 at `exampleELF` on linux: the third section is the first that passes the
test, and its five bytes are returned, not those of the fourth. -/
theorem C1_elf_first_note_section_witness :
    ReadBuildID (worldOf "linux" (elfImage exampleELF)) =
      ⟨[.Executable, .Open "/usr/bin/tinygo", .elfNewFile, .ReadAt 5 0, .Close],
        .ret (some exampleP) none⟩ :=
  C1_elf_first_note_section (worldOf "linux" (elfImage exampleELF)) "/usr/bin/tinygo"
    (elfImage exampleELF) exampleELF
    [elf.NewSection (os.ReadAt exampleELFBytes) ".text" 1 0 10,
      elf.NewSection (os.ReadAt exampleELFBytes) ".note.ABI-tag" 7 0 10]
    [elf.NewSection (os.ReadAt exampleELFBytes) ".note.gnu.build-id" 7 15 5]
    (elf.NewSection (os.ReadAt exampleELFBytes) ".note.gnu.build-id" 7 10 5)
    (io.NewSectionReader (os.ReadAt exampleELFBytes) 10 5).ReadAt
    exampleP (Or.inl rfl) rfl rfl rfl rfl
    (by
      intro t ht
      simp only [List.mem_cons, List.mem_singleton, List.mem_nil_iff, or_false] at ht
      rcases ht with rfl | rfl <;> simp [elf.Section.isBuildID, elf.NewSection, elf.SHT_NOTE])
    ⟨rfl, rfl⟩ (by decide) rfl (by decide) rfl

/-- C2: in the Mach-O branch (GOOS `darwin`), when the first raw-bytes command in
load order whose first 4 bytes, read as a little-endian uint32, equal `0x1b`
(LC_UUID) has the bytes `U` after those 4 bytes, the result is success with
exactly `U` (for `U` of 16 bytes as for any other); commands before it that are
not raw bytes or carry another id are skipped, the commands after it are
ignored, and no read is made on the image. -/
theorem C2_macho_first_uuid_command (w : World) (executable : String) (f : os.File)
    (file : macho.File) (pre post : List macho.Load) (raw U : List Byte)
    (hgoos : w.GOOS = "darwin")
    (hexe : w.Executable = .ok executable) (hopen : w.Open executable = .ok f)
    (hparse : f.machoNewFile = .ok file)
    (hloads : file.Loads = pre ++ macho.Load.LoadBytes raw :: post)
    (hpre : ∀ l ∈ pre, l.otherID)
    (hid : binary.LittleEndian.Uint32 raw = some 0x1b)
    (hU : raw.drop 4 = U) :
    ReadBuildID w =
      ⟨[.Executable, .Open executable, .machoNewFile, .Close], .ret (some U) none⟩ := by
  have hskip := machoLoads_skip pre (macho.Load.LoadBytes raw :: post) hpre
  have hscan : machoLoads (macho.Load.LoadBytes raw :: post) = some (.ret (some U) none) := by
    simp [machoLoads, hid, hU]
  simp [ReadBuildID, hexe, hopen, switchGOOS, hgoos, hparse, hloads, hskip, hscan]

/-- C2 at `exampleMachO`: the third command is the first of id `0x1b`, and the 16
bytes after its id are returned, not those of the fourth. -/
theorem C2_macho_first_uuid_command_witness :
    exampleU.length = 16 ∧
    ReadBuildID (worldOf "darwin" (machoImage exampleMachO)) =
      ⟨[.Executable, .Open "/usr/bin/tinygo", .machoNewFile, .Close],
        .ret (some exampleU) none⟩ :=
  ⟨rfl, C2_macho_first_uuid_command (worldOf "darwin" (machoImage exampleMachO))
    "/usr/bin/tinygo" (machoImage exampleMachO) exampleMachO
    [.other exampleRpath, .LoadBytes [0x32, 0, 0, 0, 8, 0, 0, 0]]
    [.LoadBytes exampleLaterUUID]
    ([0x1b, 0, 0, 0] ++ exampleU) exampleU rfl rfl rfl rfl rfl
    (by
      intro l hl
      simp only [List.mem_cons, List.mem_singleton, List.mem_nil_iff, or_false] at hl
      rcases hl with rfl | rfl <;> decide)
    (by decide) rfl⟩

/-- C3: in the PE branch (GOOS `windows`), when the first symbol named
`go.buildid` has a valid 1-based section number and the read of 100 bytes of
that section at the symbol's value delivers, without error, the 16-byte marker
`0xFF " Go build ID: "` and a double quote, an 83-byte payload `Q` and a closing
double quote, the result is success with exactly `Q`. -/
theorem C3_pe_framed_window (w : World) (executable : String) (f : os.File)
    (file : pe.File) (pre post : List pe.Symbol) (symbol : pe.Symbol) (sec : pe.Section)
    (Q : List Byte)
    (hgoos : w.GOOS = "windows")
    (hexe : w.Executable = .ok executable) (hopen : w.Open executable = .ok f)
    (hparse : f.peNewFile = .ok file)
    (hsyms : file.Symbols = pre ++ symbol :: post)
    (hpre : ∀ t ∈ pre, t.Name ≠ "go.buildid")
    (hname : symbol.Name = "go.buildid")
    (hnum : file.validSectionNumber symbol.SectionNumber)
    (hsec : file.Sections.get? (symbol.SectionNumber - 1).toNat = some sec)
    (hread : sec.ReadAt 100 symbol.Value = ⟨goBuildIDMarker ++ Q ++ [0x22], none⟩)
    (hQ : Q.length = 83) :
    ReadBuildID w =
      ⟨[.Executable, .Open executable, .peNewFile, .ReadAt 100 symbol.Value, .Close],
        .ret (some Q) none⟩ := by
  have hskip := peSymbols_skip file pre (symbol :: post) hpre
  have hidx := index_of_validSectionNumber file symbol.SectionNumber sec hnum hsec
  have hlen : (framed Q).length = 100 := by simp [framed, goBuildIDMarker, hQ]
  have hscan := peSymbols_framed file symbol post sec (framed Q) hname hidx hread hlen
    (isFramed_framed Q)
  rw [framed_payload] at hscan
  simp [ReadBuildID, hexe, hopen, switchGOOS, hgoos, hparse, hsyms, hskip, hscan]

/-- C3 at `examplePE`: the second symbol is the first named `go.buildid`, its
window starts at byte 3 of section 1 and frames `exampleQ`. -/
theorem C3_pe_framed_window_witness :
    ReadBuildID (worldOf "windows" (peImage (examplePE
        [⟨".text", 0, 1⟩, ⟨"go.buildid", 3, 1⟩, ⟨"go.buildid", 0, 1⟩]))) =
      ⟨[.Executable, .Open "/usr/bin/tinygo", .peNewFile, .ReadAt 100 3, .Close],
        .ret (some exampleQ) none⟩ :=
  C3_pe_framed_window
    (worldOf "windows" (peImage (examplePE
        [⟨".text", 0, 1⟩, ⟨"go.buildid", 3, 1⟩, ⟨"go.buildid", 0, 1⟩])))
    "/usr/bin/tinygo" _ _ [⟨".text", 0, 1⟩] [⟨"go.buildid", 0, 1⟩] ⟨"go.buildid", 3, 1⟩
    (pe.NewSection (os.ReadAt examplePEBytes) 4 103) exampleQ
    rfl rfl rfl rfl rfl (by decide) rfl (by decide) rfl (by decide) rfl

/-- C4: when the image parses in the format of the platform and lacks the
construct entirely (ELF: no section of type `SHT_NOTE` named
`.note.gnu.build-id`; Mach-O: every command is decoded or is raw bytes with an id
other than `0x1b`; PE: no symbol named `go.buildid`), `ReadBuildID` returns no
identifier and the error "could not find build ID in" the executable, no other
error, and reads nothing from the image. -/
theorem C4_construct_absent_not_found (w : World) (executable : String) (f : os.File)
    (hexe : w.Executable = .ok executable) (hopen : w.Open executable = .ok f)
    (habsent :
      ((w.GOOS = "linux" ∨ w.GOOS = "freebsd") ∧
        ∃ file, f.elfNewFile = .ok file ∧ ∀ s ∈ file.Sections, ¬ s.isBuildID) ∨
      (w.GOOS = "darwin" ∧
        ∃ file, f.machoNewFile = .ok file ∧ ∀ l ∈ file.Loads, l.otherID) ∨
      (w.GOOS = "windows" ∧
        ∃ file, f.peNewFile = .ok file ∧ ∀ t ∈ file.Symbols, t.Name ≠ "go.buildid")) :
    (ReadBuildID w).result = .ret none (some (.couldNotFind executable)) ∧
    ∀ len off, Call.ReadAt len off ∉ (ReadBuildID w).calls := by
  rcases habsent with ⟨hgoos, file, hparse, hnone⟩ | ⟨hgoos, file, hparse, hnone⟩ |
      ⟨hgoos, file, hparse, hnone⟩
  · have hskip := elfSections_skip w.maxAlloc file.Sections [] (by
      intro t ht
      have := hnone t ht
      simp only [elf.Section.isBuildID, not_and_or] at this
      exact this)
    rw [List.append_nil] at hskip
    simp [ReadBuildID, hexe, hopen, switchGOOS, hgoos, hparse, hskip, elfSections]
  · have hskip := machoLoads_skip file.Loads [] hnone
    rw [List.append_nil] at hskip
    simp [ReadBuildID, hexe, hopen, switchGOOS, hgoos, hparse, hskip, machoLoads]
  · have hskip := peSymbols_skip file file.Symbols [] hnone
    rw [List.append_nil] at hskip
    simp [ReadBuildID, hexe, hopen, switchGOOS, hgoos, hparse, hskip, peSymbols]

/-- C4 at three images, one per format: an ELF file with the build-id sections
removed, a Mach-O file with the LC_UUID commands removed, a PE file with one
symbol named `.text`. -/
theorem C4_construct_absent_not_found_witness :
    (ReadBuildID (worldOf "freebsd" (elfImage ⟨exampleELF.Sections.take 2⟩))).result
        = .ret none (some (.couldNotFind "/usr/bin/tinygo")) ∧
    (ReadBuildID (worldOf "darwin" (machoImage ⟨exampleMachO.Loads.take 2⟩))).result
        = .ret none (some (.couldNotFind "/usr/bin/tinygo")) ∧
    (ReadBuildID (worldOf "windows" (peImage (examplePE [⟨".text", 0, 1⟩])))).result
        = .ret none (some (.couldNotFind "/usr/bin/tinygo")) :=
  ⟨(C4_construct_absent_not_found (worldOf "freebsd" (elfImage ⟨exampleELF.Sections.take 2⟩))
      "/usr/bin/tinygo" _ rfl rfl
      (Or.inl ⟨Or.inr rfl, _, rfl, by
        intro s hs
        simp only [exampleELF, List.take, List.mem_cons, List.mem_singleton, List.mem_nil_iff,
          or_false] at hs
        rcases hs with rfl | rfl <;>
          simp [elf.Section.isBuildID, elf.NewSection, elf.SHT_NOTE]⟩)).1,
   (C4_construct_absent_not_found (worldOf "darwin" (machoImage ⟨exampleMachO.Loads.take 2⟩))
      "/usr/bin/tinygo" _ rfl rfl
      (Or.inr (Or.inl ⟨rfl, _, rfl, by decide⟩))).1,
   (C4_construct_absent_not_found (worldOf "windows" (peImage (examplePE [⟨".text", 0, 1⟩])))
      "/usr/bin/tinygo" _ rfl rfl
      (Or.inr (Or.inr ⟨rfl, _, rfl, by decide⟩))).1⟩

/-- C5: for every GOOS other than `linux`, `freebsd`, `darwin` and `windows`,
whatever the opened image is, `ReadBuildID` returns no identifier and the error
"cannot read build ID for GOOS=" that GOOS, and between opening and closing the
file it calls no parser and makes no read. -/
theorem C5_unsupported_platform (w : World) (executable : String) (f : os.File)
    (hexe : w.Executable = .ok executable) (hopen : w.Open executable = .ok f)
    (hgoos : w.GOOS ≠ "linux" ∧ w.GOOS ≠ "freebsd" ∧ w.GOOS ≠ "darwin" ∧ w.GOOS ≠ "windows") :
    ReadBuildID w =
      ⟨[.Executable, .Open executable, .Close], .ret none (some (.cannotReadGOOS w.GOOS))⟩ := by
  obtain ⟨h1, h2, h3, h4⟩ := hgoos
  simp [ReadBuildID, hexe, hopen, switchGOOS, h1, h2, h3, h4]

/-- C5 at GOOS `plan9`, on an image that holds a valid ELF build id. -/
theorem C5_unsupported_platform_witness :
    ReadBuildID (worldOf "plan9" (elfImage exampleELF)) =
      ⟨[.Executable, .Open "/usr/bin/tinygo", .Close],
        .ret none (some (.cannotReadGOOS "plan9"))⟩ :=
  C5_unsupported_platform (worldOf "plan9" (elfImage exampleELF)) "/usr/bin/tinygo"
    (elfImage exampleELF) rfl rfl (by decide)

/-- A read through a section reader that asks for more bytes than the section
has from the offset on reports an error. -/
theorem SectionReader_ReadAt_short (r : ReaderAt) (base size len value : Nat)
    (hshort : value + len > size) :
    ((io.NewSectionReader r base size).ReadAt len value).err ≠ none := by
  unfold io.SectionReader.ReadAt io.NewSectionReader
  simp only
  split_ifs with h1 h2 h3
  · simp
  · simp
  · exact h3
  · exfalso
    push_neg at h1 h2
    omega

/-- A read through a section reader asks the underlying reader only for bytes
of the section: two underlying readers that agree on every request inside
`[base, base + size)` give the same result. -/
theorem SectionReader_ReadAt_inside (r r' : ReaderAt) (base size len value : Nat)
    (hagree : ∀ (n : Nat) (off : Int), (base : Int) ≤ off → off + n ≤ base + size →
      r' n off = r n off) :
    (io.NewSectionReader r' base size).ReadAt len value =
      (io.NewSectionReader r base size).ReadAt len value := by
  unfold io.SectionReader.ReadAt io.NewSectionReader
  simp only
  by_cases h1 : ((value : Int) < 0 ∨ (value : Int) ≥ (base : Int) + size - base)
  · simp only [if_pos h1]
  · simp only [if_neg h1]
    push_neg at h1
    by_cases h2 : (len : Int) > (base : Int) + size - (value + base)
    · have hreq := hagree ((base : Int) + size - (value + base)).toNat (value + base)
        (by omega) (by omega)
      simp only [if_pos h2, hreq]
    · simp only [if_neg h2]
      exact hagree len _ (by omega) (by omega)

/-- C6: in the PE branch, when the first symbol named `go.buildid` has a valid
section number, the section's reader is the section reader `pe.NewFile` sets up
over the file, and the symbol's value plus 100 exceeds the section's `Size`,
`ReadBuildID` returns no identifier and the error "could not read build id"
wrapping the reader's error; it does not panic, it makes that one read, and the
read depends on no byte of the file outside the section. -/
theorem C6_pe_window_past_section_end (w : World) (executable : String) (f : os.File)
    (file : pe.File) (pre post : List pe.Symbol) (symbol : pe.Symbol) (sec : pe.Section)
    (r : ReaderAt)
    (hgoos : w.GOOS = "windows")
    (hexe : w.Executable = .ok executable) (hopen : w.Open executable = .ok f)
    (hparse : f.peNewFile = .ok file)
    (hsyms : file.Symbols = pre ++ symbol :: post)
    (hpre : ∀ t ∈ pre, t.Name ≠ "go.buildid")
    (hname : symbol.Name = "go.buildid")
    (hnum : file.validSectionNumber symbol.SectionNumber)
    (hsec : file.Sections.get? (symbol.SectionNumber - 1).toNat = some sec)
    (hreader : sec.ReadAt = (io.NewSectionReader r sec.Offset sec.Size).ReadAt)
    (hshort : symbol.Value + 100 > sec.Size) :
    (∃ cause, ReadBuildID w =
      ⟨[.Executable, .Open executable, .peNewFile, .ReadAt 100 symbol.Value, .Close],
        .ret none (some (.couldNotRead (some cause)))⟩) ∧
    (∀ r' : ReaderAt,
      (∀ (n : Nat) (off : Int), (sec.Offset : Int) ≤ off → off + n ≤ sec.Offset + sec.Size →
        r' n off = r n off) →
      (io.NewSectionReader r' sec.Offset sec.Size).ReadAt 100 symbol.Value =
        sec.ReadAt 100 symbol.Value) := by
  refine ⟨?_, fun r' hagree => ?_⟩
  · have hskip := peSymbols_skip file pre (symbol :: post) hpre
    have hidx := index_of_validSectionNumber file symbol.SectionNumber sec hnum hsec
    have herr : (sec.ReadAt 100 symbol.Value).err ≠ none := by
      rw [hreader]
      exact SectionReader_ReadAt_short r sec.Offset sec.Size 100 symbol.Value hshort
    obtain ⟨cause, hcause⟩ := Option.ne_none_iff_exists'.mp herr
    refine ⟨cause, ?_⟩
    have hn : ¬ symbol.Name ≠ "go.buildid" := by simp [hname]
    have hscan : peSymbols file (symbol :: post) =
        ([Call.ReadAt 100 symbol.Value], some (.ret none (some (.couldNotRead (some cause))))) := by
      simp only [peSymbols, if_neg hn, hidx]
      rw [if_pos (Or.inl herr), hcause]
    simp [ReadBuildID, hexe, hopen, switchGOOS, hgoos, hparse, hsyms, hskip, hscan]
  · rw [hreader]
    exact SectionReader_ReadAt_inside r r' sec.Offset sec.Size 100 symbol.Value hagree

/-- C6 at `examplePE`: section 1 has 103 bytes, so a window at byte 4 would end
one byte past the section (the file has no byte there either). -/
theorem C6_pe_window_past_section_end_witness :
    ∃ cause, ReadBuildID (worldOf "windows" (peImage (examplePE
        [⟨"go.buildid", 4, 1⟩, ⟨"go.buildid", 3, 1⟩]))) =
      ⟨[.Executable, .Open "/usr/bin/tinygo", .peNewFile, .ReadAt 100 4, .Close],
        .ret none (some (.couldNotRead (some cause)))⟩ :=
  (C6_pe_window_past_section_end
    (worldOf "windows" (peImage (examplePE [⟨"go.buildid", 4, 1⟩, ⟨"go.buildid", 3, 1⟩])))
    "/usr/bin/tinygo" _ _ [] [⟨"go.buildid", 3, 1⟩] ⟨"go.buildid", 4, 1⟩
    (pe.NewSection (os.ReadAt examplePEBytes) 4 103) (os.ReadAt examplePEBytes)
    rfl rfl rfl rfl rfl (by decide) rfl (by decide) rfl rfl (by decide)).1

/-- C7, as the code has it: the Mach-O branch makes no length check.  When the
first raw command of id `0x1b` has the raw bytes `raw` (at least the 4 bytes of
the id), the result is success with the `len(raw) - 4` bytes after the id,
however few they are, and not a read error. -/
theorem C7_macho_raw_length_unchecked (w : World) (executable : String) (f : os.File)
    (file : macho.File) (pre post : List macho.Load) (raw : List Byte)
    (hgoos : w.GOOS = "darwin")
    (hexe : w.Executable = .ok executable) (hopen : w.Open executable = .ok f)
    (hparse : f.machoNewFile = .ok file)
    (hloads : file.Loads = pre ++ macho.Load.LoadBytes raw :: post)
    (hpre : ∀ l ∈ pre, l.otherID)
    (hid : binary.LittleEndian.Uint32 raw = some 0x1b) :
    (ReadBuildID w).result = .ret (some (raw.drop 4)) none ∧
    (raw.drop 4).length = raw.length - 4 ∧ 4 ≤ raw.length := by
  have hskip := machoLoads_skip pre (macho.Load.LoadBytes raw :: post) hpre
  have hscan : machoLoads (macho.Load.LoadBytes raw :: post) =
      some (.ret (some (raw.drop 4)) none) := by
    simp [machoLoads, hid]
  refine ⟨?_, List.length_drop 4 raw, ?_⟩
  · simp [ReadBuildID, hexe, hopen, switchGOOS, hgoos, hparse, hloads, hskip, hscan]
  · match raw, hid with
    | _ :: _ :: _ :: _ :: _, _ => simp

/-- C7 as amended, at an LC_UUID command of 8 raw bytes after a command of
another id: success with the 4 bytes after the id. -/
theorem C7_macho_raw_length_unchecked_witness :
    (ReadBuildID (worldOf "darwin" (machoImage
        ⟨[.LoadBytes [0x32, 0, 0, 0, 8, 0, 0, 0], .LoadBytes exampleShortUUID]⟩))).result
      = .ret (some (exampleShortUUID.drop 4)) none ∧
    (exampleShortUUID.drop 4).length = exampleShortUUID.length - 4 ∧
    4 ≤ exampleShortUUID.length :=
  C7_macho_raw_length_unchecked
    (worldOf "darwin" (machoImage
      ⟨[.LoadBytes [0x32, 0, 0, 0, 8, 0, 0, 0], .LoadBytes exampleShortUUID]⟩))
    "/usr/bin/tinygo" _ _ [.LoadBytes [0x32, 0, 0, 0, 8, 0, 0, 0]] [] exampleShortUUID
    rfl rfl rfl rfl rfl (by decide) (by decide)

/-- C7 as stated fails: the one command of this Mach-O file has id `0x1b` and 8
raw bytes, fewer than the 4 + 16 the claim requires, and `ReadBuildID` returns
success with a 4-byte identifier, not a read error. -/
theorem C7_short_uuid_command_counterexample :
    binary.LittleEndian.Uint32 exampleShortUUID = some 0x1b ∧
    exampleShortUUID.length < 4 + 16 ∧
    ReadBuildID (worldOf "darwin" (machoImage ⟨[.LoadBytes exampleShortUUID]⟩)) =
      ⟨[.Executable, .Open "/usr/bin/tinygo", .machoNewFile, .Close],
        .ret (some [8, 0, 0, 0]) none⟩ ∧
    ¬ ∃ cause, (ReadBuildID (worldOf "darwin"
        (machoImage ⟨[.LoadBytes exampleShortUUID]⟩))).result =
      .ret none (some (.couldNotRead cause)) := by
  refine ⟨by decide, by decide, by decide, ?_⟩
  rintro ⟨cause, h⟩
  have hres : (ReadBuildID (worldOf "darwin"
      (machoImage ⟨[.LoadBytes exampleShortUUID]⟩))).result = .ret (some [8, 0, 0, 0]) none := by
    decide
  rw [hres] at h
  cases h

/-- C8, what the code does: in the PE branch, when the first symbol named
`go.buildid` has a section number (an `int16` above its minimum) that is zero,
negative or greater than the number of sections, the index expression
`file.Sections[symbol.SectionNumber-1]` panics: no error is returned and no read
is made. -/
theorem C8_pe_section_number_out_of_range_panics (w : World) (executable : String)
    (f : os.File) (file : pe.File) (pre post : List pe.Symbol) (symbol : pe.Symbol)
    (hgoos : w.GOOS = "windows")
    (hexe : w.Executable = .ok executable) (hopen : w.Open executable = .ok f)
    (hparse : f.peNewFile = .ok file)
    (hsyms : file.Symbols = pre ++ symbol :: post)
    (hpre : ∀ t ∈ pre, t.Name ≠ "go.buildid")
    (hname : symbol.Name = "go.buildid")
    (hint16 : -32768 < symbol.SectionNumber ∧ symbol.SectionNumber ≤ 32767)
    (hout : symbol.SectionNumber ≤ 0 ∨ symbol.SectionNumber > file.Sections.length) :
    ReadBuildID w = ⟨[.Executable, .Open executable, .peNewFile, .Close], .panic⟩ := by
  have hskip := peSymbols_skip file pre (symbol :: post) hpre
  have hw : wrapInt16 (symbol.SectionNumber - 1) = symbol.SectionNumber - 1 := by
    unfold wrapInt16
    omega
  have hidx : index file.Sections (wrapInt16 (symbol.SectionNumber - 1)) = none := by
    rw [hw, index]
    split_ifs with hneg
    · rfl
    · rw [List.get?_eq_none]
      omega
  have hn : ¬ symbol.Name ≠ "go.buildid" := by simp [hname]
  have hscan : peSymbols file (symbol :: post) = ([], some .panic) := by
    simp only [peSymbols, if_neg hn, hidx]
  simp [ReadBuildID, hexe, hopen, switchGOOS, hgoos, hparse, hsyms, hskip, hscan]

/-- C8 at a symbol `go.buildid` with section number 0 (an undefined symbol, in
COFF terms) in a file of one section: a panic. -/
theorem C8_pe_section_number_out_of_range_panics_witness :
    ReadBuildID (worldOf "windows" (peImage (examplePE [⟨"go.buildid", 3, 0⟩]))) =
      ⟨[.Executable, .Open "/usr/bin/tinygo", .peNewFile, .Close], .panic⟩ :=
  C8_pe_section_number_out_of_range_panics
    (worldOf "windows" (peImage (examplePE [⟨"go.buildid", 3, 0⟩])))
    "/usr/bin/tinygo" _ _ [] [] ⟨"go.buildid", 3, 0⟩
    rfl rfl rfl rfl rfl (by decide) rfl (by decide) (by decide)

/-- C9, as the code has it: in the PE branch a first symbol named `go.buildid`
whose 100-byte window is read in full but is not framed does not end the scan.
The result is that of the scan of the symbols after it: the not-found failure
when none of them is named `go.buildid`, and success with the payload `Q` when
the next one named `go.buildid` has a valid section number and a window read in
full that frames `Q`. -/
theorem C9_pe_unframed_window_passed_over (w : World) (executable : String) (f : os.File)
    (file : pe.File) (pre post : List pe.Symbol) (symbol : pe.Symbol) (sec : pe.Section)
    (win : List Byte)
    (hgoos : w.GOOS = "windows")
    (hexe : w.Executable = .ok executable) (hopen : w.Open executable = .ok f)
    (hparse : f.peNewFile = .ok file)
    (hsyms : file.Symbols = pre ++ symbol :: post)
    (hpre : ∀ t ∈ pre, t.Name ≠ "go.buildid")
    (hname : symbol.Name = "go.buildid")
    (hnum : file.validSectionNumber symbol.SectionNumber)
    (hsec : file.Sections.get? (symbol.SectionNumber - 1).toNat = some sec)
    (hread : sec.ReadAt 100 symbol.Value = ⟨win, none⟩) (hwin : win.length = 100)
    (hbad : ¬ isFramed win) :
    (ReadBuildID w).result =
      (peSymbols file post).2.getD (.ret none (some (.couldNotFind executable))) ∧
    ((∀ t ∈ post, t.Name ≠ "go.buildid") →
      (ReadBuildID w).result = .ret none (some (.couldNotFind executable))) ∧
    (∀ (mid rest : List pe.Symbol) (next : pe.Symbol) (sec2 : pe.Section) (Q : List Byte),
      post = mid ++ next :: rest → (∀ t ∈ mid, t.Name ≠ "go.buildid") →
      next.Name = "go.buildid" → file.validSectionNumber next.SectionNumber →
      file.Sections.get? (next.SectionNumber - 1).toNat = some sec2 →
      sec2.ReadAt 100 next.Value = ⟨framed Q, none⟩ → Q.length = 83 →
      (ReadBuildID w).result = .ret (some Q) none) := by
  have hskip := peSymbols_skip file pre (symbol :: post) hpre
  have hidx := index_of_validSectionNumber file symbol.SectionNumber sec hnum hsec
  have hscan := peSymbols_not_framed file symbol post sec win hname hidx hread hwin hbad
  have hres : (ReadBuildID w).result =
      (peSymbols file post).2.getD (.ret none (some (.couldNotFind executable))) := by
    simp [ReadBuildID, hexe, hopen, switchGOOS, hgoos, hparse, hsyms, hskip, hscan]
  refine ⟨hres, ?_, ?_⟩
  · intro hnone
    have hend := peSymbols_skip file post [] hnone
    rw [List.append_nil] at hend
    rw [hres, hend]
    rfl
  · intro mid rest next sec2 Q hpost hmid hnext hnum2 hsec2 hread2 hQ
    have hskip2 := peSymbols_skip file mid (next :: rest) hmid
    have hidx2 := index_of_validSectionNumber file next.SectionNumber sec2 hnum2 hsec2
    have hlen : (framed Q).length = 100 := by simp [framed, goBuildIDMarker, hQ]
    have hscan2 := peSymbols_framed file next rest sec2 (framed Q) hnext hidx2 hread2 hlen
      (isFramed_framed Q)
    rw [hres, hpost, hskip2, hscan2, framed_payload]
    rfl

/-- C9 as amended, at `examplePE` with a symbol `go.buildid` at byte 2 of
section 1 (an unframed window) and no later one: not found. -/
theorem C9_pe_unframed_window_passed_over_witness :
    (ReadBuildID (worldOf "windows" (peImage (examplePE
        [⟨"go.buildid", 2, 1⟩, ⟨".text", 0, 1⟩])))).result =
      .ret none (some (.couldNotFind "/usr/bin/tinygo")) :=
  (C9_pe_unframed_window_passed_over
    (worldOf "windows" (peImage (examplePE [⟨"go.buildid", 2, 1⟩, ⟨".text", 0, 1⟩])))
    "/usr/bin/tinygo" _ _ [] [⟨".text", 0, 1⟩] ⟨"go.buildid", 2, 1⟩
    (pe.NewSection (os.ReadAt examplePEBytes) 4 103)
    ((examplePEBytes.drop 6).take 100)
    rfl rfl rfl rfl rfl (by decide) rfl (by decide) rfl (by decide) (by decide)
    (by decide)).2.1 (by decide)

/-- C9 as stated fails: the first symbol named `go.buildid` of this PE file has
a window that is read in full (100 bytes, no error) and is not framed, yet the
result is not the not-found failure: the scan goes on, reads the window of the
second symbol named `go.buildid`, and returns its payload. -/
theorem C9_later_symbol_decides_counterexample :
    (pe.NewSection (os.ReadAt examplePEBytes) 4 103).ReadAt 100 2 =
      ⟨(examplePEBytes.drop 6).take 100, none⟩ ∧
    ((examplePEBytes.drop 6).take 100).length = 100 ∧
    ¬ isFramed ((examplePEBytes.drop 6).take 100) ∧
    ReadBuildID (worldOf "windows" (peImage (examplePE
        [⟨"go.buildid", 2, 1⟩, ⟨"go.buildid", 3, 1⟩]))) =
      ⟨[.Executable, .Open "/usr/bin/tinygo", .peNewFile, .ReadAt 100 2, .ReadAt 100 3, .Close],
        .ret (some exampleQ) none⟩ := by
  refine ⟨by decide, by decide, by decide, by decide⟩

/-- C10, what the code does: for every GOOS and every opened image as the
parsers return it (the reader of an ELF build-id section is nil or the section
reader over its `Size` bytes, a raw Mach-O command has at least 8 bytes),
`ReadBuildID` ends in one of three ways.  It returns a non-empty identifier and
no error; or it returns an error and no identifier bytes; or it panics and
returns nothing, which happens only in the ELF branch, on a build-id section
whose size cannot be allocated or whose reader is nil, and in the PE branch, on a
symbol named `go.buildid` whose section number is out of range at line 89.  A
success is never empty, a failure never carries bytes, and the panic is the one
outcome outside the two the claim allows. -/
theorem C10_success_failure_or_panic (w : World) (executable : String) (f : os.File)
    (hexe : w.Executable = .ok executable) (hopen : w.Open executable = .ok f)
    (helf : ∀ file, f.elfNewFile = .ok file →
      ∀ s ∈ file.Sections, s.isBuildID → s.readerAsParsed)
    (hmacho : ∀ file, f.machoNewFile = .ok file →
      ∀ raw, macho.Load.LoadBytes raw ∈ file.Loads → 8 ≤ raw.length) :
    (∃ b, b ≠ [] ∧ (ReadBuildID w).result = .ret (some b) none) ∨
    (∃ e, (ReadBuildID w).result = .ret none (some e)) ∨
    ((ReadBuildID w).result = .panic ∧
      (((w.GOOS = "linux" ∨ w.GOOS = "freebsd") ∧
          ∃ file s, f.elfNewFile = .ok file ∧ s ∈ file.Sections ∧ s.isBuildID ∧
            (s.Size > w.maxAlloc ∨ s.ReadAt = none)) ∨
        (w.GOOS = "windows" ∧
          ∃ file t, f.peNewFile = .ok file ∧ t ∈ file.Symbols ∧ t.Name = "go.buildid" ∧
            index file.Sections (wrapInt16 (t.SectionNumber - 1)) = none))) := by
  rw [ReadBuildID_result w executable f hexe hopen]
  unfold switchGOOS
  by_cases h1 : w.GOOS = "linux" ∨ w.GOOS = "freebsd"
  · simp only [if_pos h1]
    cases hparse : f.elfNewFile with
    | error err => exact Or.inr (Or.inl ⟨_, rfl⟩)
    | ok file =>
      simp only
      cases hscan : (elfSections w.maxAlloc file.Sections).2 with
      | none => exact Or.inr (Or.inl ⟨_, rfl⟩)
      | some o =>
        rcases elfSections_outcome w.maxAlloc file.Sections o (helf file hparse) hscan with
          ⟨b, hb, ho⟩ | ⟨e, he⟩ | ⟨hp, s, hs, hbuild, hcause⟩
        · exact Or.inl ⟨b, hb, by simp [ho]⟩
        · exact Or.inr (Or.inl ⟨e, by simp [he]⟩)
        · exact Or.inr (Or.inr ⟨by simp [hp], Or.inl ⟨h1, file, s, rfl, hs, hbuild, hcause⟩⟩)
  · simp only [if_neg h1]
    by_cases h2 : w.GOOS = "darwin"
    · simp only [if_pos h2]
      cases hparse : f.machoNewFile with
      | error err => exact Or.inr (Or.inl ⟨_, rfl⟩)
      | ok file =>
        simp only
        cases hscan : machoLoads file.Loads with
        | none => exact Or.inr (Or.inl ⟨_, rfl⟩)
        | some o =>
          obtain ⟨raw, _, _, ho, hne⟩ :=
            machoLoads_outcome file.Loads o (hmacho file hparse) hscan
          exact Or.inl ⟨raw.drop 4, hne, by simp [ho]⟩
    · simp only [if_neg h2]
      by_cases h3 : w.GOOS = "windows"
      · simp only [if_pos h3]
        cases hparse : f.peNewFile with
        | error err => exact Or.inr (Or.inl ⟨_, rfl⟩)
        | ok file =>
          simp only
          cases hscan : (peSymbols file file.Symbols).2 with
          | none => exact Or.inr (Or.inl ⟨_, rfl⟩)
          | some o =>
            rcases peSymbols_outcome file file.Symbols o hscan with
              ⟨b, ho, hl⟩ | ⟨e, he⟩ | ⟨hp, t, ht, hname, hidx⟩
            · refine Or.inl ⟨b, ?_, by simp [ho]⟩
              intro hnil
              rw [hnil] at hl
              cases hl
            · exact Or.inr (Or.inl ⟨e, by simp [he]⟩)
            · exact Or.inr (Or.inr ⟨by simp [hp], Or.inr ⟨h3, file, t, rfl, ht, hname, hidx⟩⟩)
      · simp only [if_neg h3]
        exact Or.inr (Or.inl ⟨_, rfl⟩)

/-- C10 at four images.  `exampleELF` and `exampleMachO` give a non-empty
identifier; `exampleEmptyELF`, whose build-id section has the declared size 0,
gives an error (the section reader reports `EOF`), not the empty identifier;
`exampleUndefinedPE`, whose symbol `go.buildid` has section number 0, gives the
panic. -/
theorem C10_success_failure_or_panic_witness :
    (∃ b, b ≠ [] ∧
      (ReadBuildID (worldOf "linux" (elfImage exampleELF))).result = .ret (some b) none) ∧
    (∃ e, (ReadBuildID (worldOf "linux" (elfImage exampleEmptyELF))).result
      = .ret none (some e)) ∧
    (∃ b, b ≠ [] ∧
      (ReadBuildID (worldOf "darwin" (machoImage exampleMachO))).result = .ret (some b) none) ∧
    (ReadBuildID (worldOf "windows" (peImage exampleUndefinedPE))).result = .panic := by
  have helf : ∀ (image : elf.File) (r : ReaderAt) (size : Nat),
      image.Sections = [elf.NewSection r ".text" 1 0 10,
        elf.NewSection r ".note.gnu.build-id" 7 10 size] ∨
      image.Sections = [elf.NewSection r ".text" 1 0 10,
        elf.NewSection r ".note.ABI-tag" 7 0 10,
        elf.NewSection r ".note.gnu.build-id" 7 10 size,
        elf.NewSection r ".note.gnu.build-id" 7 15 size] →
      ∀ file, (elfImage image).elfNewFile = .ok file →
        ∀ s ∈ file.Sections, s.isBuildID → s.readerAsParsed := by
    intro image r size himage file hfile s hs _
    have hf : file = image := by
      simp only [elfImage, Except.ok.injEq] at hfile
      exact hfile.symm
    subst hf
    rcases himage with himage | himage <;>
      · rw [himage] at hs
        simp only [List.mem_cons, List.mem_singleton, List.mem_nil_iff, or_false] at hs
        rcases hs with rfl | rfl | rfl | rfl <;> exact NewSection_readerAsParsed _ _ _ _ _
  have hnomacho : ∀ (image : elf.File) (file : macho.File),
      (elfImage image).machoNewFile = .ok file →
        ∀ raw, macho.Load.LoadBytes raw ∈ file.Loads → 8 ≤ raw.length := by
    intro image file hfile
    simp [elfImage] at hfile
  have r1 : (ReadBuildID (worldOf "linux" (elfImage exampleELF))).result
      = .ret (some exampleP) none := by decide
  have r2 : (ReadBuildID (worldOf "linux" (elfImage exampleEmptyELF))).result
      = .ret none (some (.couldNotRead (some io.EOF))) := by decide
  have r3 : (ReadBuildID (worldOf "darwin" (machoImage exampleMachO))).result
      = .ret (some exampleU) none := by decide
  have r4 : (ReadBuildID (worldOf "windows" (peImage exampleUndefinedPE))).result
      = .panic := by decide
  have c1 := C10_success_failure_or_panic (worldOf "linux" (elfImage exampleELF))
    "/usr/bin/tinygo" (elfImage exampleELF) rfl rfl
    (helf exampleELF (os.ReadAt exampleELFBytes) 5 (Or.inr rfl)) (hnomacho exampleELF)
  have c2 := C10_success_failure_or_panic (worldOf "linux" (elfImage exampleEmptyELF))
    "/usr/bin/tinygo" (elfImage exampleEmptyELF) rfl rfl
    (helf exampleEmptyELF (os.ReadAt exampleELFBytes) 0 (Or.inl rfl)) (hnomacho exampleEmptyELF)
  have c3 := C10_success_failure_or_panic (worldOf "darwin" (machoImage exampleMachO))
    "/usr/bin/tinygo" (machoImage exampleMachO) rfl rfl
    (by
      intro file hfile
      simp [machoImage] at hfile)
    (by
      intro file hfile raw hraw
      have hf : file = exampleMachO := by
        simp only [machoImage, Except.ok.injEq] at hfile
        exact hfile.symm
      subst hf
      simp only [exampleMachO, List.mem_cons, List.mem_singleton, List.mem_nil_iff, or_false,
        macho.Load.LoadBytes.injEq, reduceCtorEq, false_or] at hraw
      rcases hraw with rfl | rfl | rfl <;> decide)
  have c4 := C10_success_failure_or_panic (worldOf "windows" (peImage exampleUndefinedPE))
    "/usr/bin/tinygo" (peImage exampleUndefinedPE) rfl rfl
    (by
      intro file hfile
      simp [peImage] at hfile)
    (by
      intro file hfile
      simp [peImage] at hfile)
  refine ⟨?_, ?_, ?_, ?_⟩
  · rcases c1 with hb | ⟨e, he⟩ | ⟨hp, _⟩
    · exact hb
    · rw [r1] at he
      cases he
    · rw [r1] at hp
      cases hp
  · rcases c2 with ⟨b, _, hb⟩ | he | ⟨hp, _⟩
    · rw [r2] at hb
      cases hb
    · exact he
    · rw [r2] at hp
      cases hp
  · rcases c3 with hb | ⟨e, he⟩ | ⟨hp, _⟩
    · exact hb
    · rw [r3] at he
      cases he
    · rw [r3] at hp
      cases hp
  · rcases c4 with ⟨b, _, hb⟩ | ⟨e, he⟩ | ⟨hp, _⟩
    · rw [r4] at hb
      cases hb
    · rw [r4] at he
      cases he
    · exact hp

/-- C10 as stated fails on the code at two images the parsers return.  On
windows, a PE file whose symbol `go.buildid` has section number 0 (an undefined
symbol): the index expression of line 89 panics.  On linux, an ELF file whose
section `.note.gnu.build-id` is compressed: the call through the nil reader at
line 38 panics.  Neither run returns an identifier or an error. -/
theorem C10_panic_counterexample :
    ReadBuildID (worldOf "windows" (peImage exampleUndefinedPE)) =
      ⟨[.Executable, .Open "/usr/bin/tinygo", .peNewFile, .Close], .panic⟩ ∧
    ReadBuildID (worldOf "linux" (elfImage exampleCompressedELF)) =
      ⟨[.Executable, .Open "/usr/bin/tinygo", .elfNewFile, .Close], .panic⟩ := by
  refine ⟨by decide, by decide⟩

end builder
